import Mathlib

/-!
A shallow embedding of the color-grouping pipeline of this repository
(`extract_color.py` and `detect_product.py`), together with theorems
checking the specification's claims about it.

Modelling conventions:
* machine integers are `ℕ`/`ℤ` with explicit `% 256` where the numpy
  `uint8` dtype makes overflow observable;
* the floating-point arithmetic of the box conversion and of the k-means
  centroid is idealised over `ℚ`, and `np.sqrt` over `ℝ`;
* fallible Python code (helpers returning `None` on a caught exception,
  and the exceptions their callers then hit) is modelled with `Option`.
-/

/-- A color as it flows through the pipeline: three 8-bit channel values
in the image's native (BGR) channel order, as produced by
`np.uint8(centers)[0]` in `find_dominant_colors`. -/
abbrev Color := ℕ × ℕ × ℕ

/-- numpy `uint8` subtraction: `color1 - color2` between `uint8` values
keeps the `uint8` dtype and wraps modulo 256. -/
def sub_u8 (a b : ℕ) : ℕ := (((a : ℤ) - (b : ℤ)) % 256).toNat

/-- numpy `uint8` squaring: `x ** 2` on a `uint8` value also keeps the
`uint8` dtype and wraps modulo 256. -/
def sq_u8 (x : ℕ) : ℕ := x * x % 256

/-- The integer `np.sum((color1 - color2) ** 2)` computes in
`color_distance` (extract_color.py:78) when both colors carry `uint8`
channels: each channel difference and its square wrap modulo 256, while
`np.sum` accumulates in a wide integer and does not wrap. -/
def colorDistSq (c1 c2 : Color) : ℕ :=
  sq_u8 (sub_u8 c1.1 c2.1) + sq_u8 (sub_u8 c1.2.1 c2.2.1) + sq_u8 (sub_u8 c1.2.2 c2.2.2)

/-- `color_distance` (extract_color.py:63-82):
`np.sqrt(np.sum((color1 - color2) ** 2))`.  The sum is at most 765, so
the `float64` square root is exact enough that comparisons against
integers agree with the real square root used here. -/
noncomputable def color_distance (c1 c2 : Color) : ℝ :=
  Real.sqrt (colorDistSq c1 c2)

/-- The exact squared Euclidean distance over the raw channel values.
Modelled from the spec's words ("Euclidean distance over raw channel
values"), to be compared with `colorDistSq` / `color_distance`. -/
def specEuclidSq (c1 c2 : Color) : ℤ :=
  ((c1.1 : ℤ) - (c2.1 : ℤ)) ^ 2 + ((c1.2.1 : ℤ) - (c2.2.1 : ℤ)) ^ 2
    + ((c1.2.2 : ℤ) - (c2.2.2 : ℤ)) ^ 2

/-- The exact Euclidean distance over the raw channel values, per the
spec's words; the reference point for claim C2. -/
noncomputable def specEuclideanDistance (c1 c2 : Color) : ℝ :=
  Real.sqrt ((specEuclidSq c1 c2 : ℝ))

/-- One group's bookkeeping data, the `{'index': i, 'count': n}`
dictionaries of `find_similar_objects`. -/
structure GroupInfo where
  index : ℕ
  count : ℕ
deriving DecidableEq

/-- The insertion-ordered dictionary `color_groups` of
`find_similar_objects`, modelled as an association list in insertion
order (Python dicts iterate in insertion order). -/
abbrev ColorGroups := List (Color × GroupInfo)

/-- Processing one color of `dominant_colors`
(extract_color.py:100-108): walk the existing groups in creation order;
the first representative at distance `< 10` (equivalently, wrapped
squared distance `< 100`) absorbs the color — its count is incremented
and its representative is left unchanged — otherwise a new group keyed
by the color is appended with index `i` and count 1. -/
def addColor : ColorGroups → ℕ → Color → ColorGroups
  | [], i, c => [(c, ⟨i, 1⟩)]
  | (k, info) :: rest, i, c =>
    if colorDistSq c k < 100 then (k, ⟨info.index, info.count + 1⟩) :: rest
    else (k, info) :: addColor rest i c

/-- The `for i, color in enumerate(dominant_colors)` loop of
`find_similar_objects`, with the running group dictionary and the
running index made explicit. -/
def groupColorsAux : ColorGroups → ℕ → List Color → ColorGroups
  | acc, _, [] => acc
  | acc, i, c :: cs => groupColorsAux (addColor acc i c) (i + 1) cs

/-- `find_similar_objects` (extract_color.py:84-113) on an error-free
color list (no `None` entries, which would make the Python function
return `None`; that failure path is modelled in `colors_extracted`). -/
def find_similar_objects (dominant_colors : List Color) : ColorGroups :=
  groupColorsAux [] 0 dominant_colors

/-- Ghost instrumentation of `addColor` recording, for each group, the
list of input positions assigned to it instead of their mere count.
Used to state the partition property of claim C1. -/
def addColorMem : List (Color × ℕ × List ℕ) → ℕ → Color → List (Color × ℕ × List ℕ)
  | [], i, c => [(c, i, [i])]
  | (k, idx, ms) :: rest, i, c =>
    if colorDistSq c k < 100 then (k, idx, ms ++ [i]) :: rest
    else (k, idx, ms) :: addColorMem rest i c

/-- Ghost instrumentation of `groupColorsAux` (see `addColorMem`). -/
def groupMemAux : List (Color × ℕ × List ℕ) → ℕ → List Color → List (Color × ℕ × List ℕ)
  | acc, _, [] => acc
  | acc, i, c :: cs => groupMemAux (addColorMem acc i c) (i + 1) cs

/-- Ghost instrumentation of `find_similar_objects` (see `addColorMem`). -/
def groupMembers (dominant_colors : List Color) : List (Color × ℕ × List ℕ) :=
  groupMemAux [] 0 dominant_colors

/-- Forgetting the ghost member lists recovers the real group data. -/
def memProj (g : Color × ℕ × List ℕ) : Color × GroupInfo :=
  (g.1, ⟨g.2.1, g.2.2.length⟩)

/-- All input positions claimed by any group, in group order. -/
def allMembers (gs : List (Color × ℕ × List ℕ)) : List ℕ :=
  (gs.map (fun g => g.2.2)).flatten

/-- Truncation of a rational toward zero: the semantics of Python's
`int()` applied to a float value. -/
def ratTrunc (q : ℚ) : ℤ := q.num.tdiv (q.den : ℤ)

/-- `extract_bbox_coordinates` (extract_color.py:4-33): unpack the box
into exactly four components (any other arity raises, the handler
returns `None`) and convert the normalized center/size box to integer
pixel corners with Python `int()` casts. -/
def extract_bbox_coordinates (yolo_bbox : List ℚ) (image_width image_height : ℕ) :
    Option (ℤ × ℤ × ℤ × ℤ) :=
  match yolo_bbox with
  | [x_center, y_center, width, height] =>
    some (ratTrunc ((x_center - width / 2) * image_width),
          ratTrunc ((y_center - height / 2) * image_height),
          ratTrunc ((x_center + width / 2) * image_width),
          ratTrunc ((y_center + height / 2) * image_height))
  | _ => none

/-- The decoded image: a pixel grid in BGR channel order, of shape
`(height, width, 3)` as `image.shape` reads it in `colors_extracted`. -/
structure Image where
  height : ℕ
  width : ℕ
  pixel : ℕ → ℕ → Color

/-- Python slice `a:b` on an axis of length `n` (numpy basic slicing, as
in `image[y1:y2, x1:x2]`): a negative endpoint counts from the end, then
both endpoints are clamped into `[0, n]`. -/
def sliceIndices (a b : ℤ) (n : ℕ) : List ℕ :=
  let norm := fun x : ℤ => if x < 0 then x + n else x
  let s := max 0 (min (norm a) (n : ℤ))
  let t := max 0 (min (norm b) (n : ℤ))
  List.range' s.toNat (t - s).toNat

/-- The pixels of `image[y1:y2, x1:x2]` flattened row-major, as
`image.reshape(-1, 3)` flattens them in `find_dominant_colors`. -/
def cropPixels (img : Image) (y1 y2 x1 x2 : ℤ) : List Color :=
  ((sliceIndices y1 y2 img.height).map (fun y =>
    (sliceIndices x1 x2 img.width).map (fun x => img.pixel y x))).flatten

/-- A k-means center with exact (idealised-float) coordinates. -/
abbrev QColor := ℚ × ℚ × ℚ

/-- The mean of a pixel list, channelwise (junk value `0` on an empty
list, which `find_dominant_colors` never reaches: `cv2.kmeans` raises on
an empty sample first). -/
def centroid (pixels : List Color) : QColor :=
  let n : ℚ := pixels.length
  ((pixels.map (fun p => (p.1 : ℚ))).sum / n,
   (pixels.map (fun p => (p.2.1 : ℚ))).sum / n,
   (pixels.map (fun p => (p.2.2 : ℚ))).sum / n)

/-- One Lloyd iteration of `cv2.kmeans` with `k = 1`: every pixel is
assigned to the unique center, so the updated center is the mean of all
pixels whatever the previous center was. -/
def kmeansStep (pixels : List Color) (_c : QColor) : QColor := centroid pixels

/-- Squared movement of the center between two iterations. -/
def moveDistSq (c1 c2 : QColor) : ℚ :=
  (c1.1 - c2.1) ^ 2 + (c1.2.1 - c2.2.1) ^ 2 + (c1.2.2 - c2.2.2) ^ 2

/-- The `cv2.kmeans` iteration under the stopping criteria of
extract_color.py:54, `TERM_CRITERIA_EPS + TERM_CRITERIA_MAX_ITER` with
200 iterations and epsilon 0.1: stop when the center moves less than
0.1 (compared on squares: `< 1/100`) or the iteration budget runs out. -/
def kmeansLoop (pixels : List Color) : ℕ → QColor → QColor
  | 0, c => c
  | fuel + 1, c =>
    let c2 := kmeansStep pixels c
    if moveDistSq c c2 < 1 / 100 then c2 else kmeansLoop pixels fuel c2

/-- `find_dominant_colors` (extract_color.py:35-61) with `k = 1`: flatten
the crop, run k-means (one random initial center, modelled by the
explicit `init` argument; the 10 restarts of `attempts=10` all land on
the same center for `k = 1`), and cast the center to `uint8`
(`np.uint8(centers)`, a C float-to-integer cast truncating toward zero).
`cv2.kmeans` raises on an empty sample, the handler returns `None`. -/
def find_dominant_colors (pixels : List Color) (init : QColor) : Option Color :=
  if pixels.isEmpty then none
  else
    let c := kmeansLoop pixels 200 init
    some ((ratTrunc c.1).toNat, (ratTrunc c.2.1).toNat, (ratTrunc c.2.2).toNat)

/-- One record of the list `colors_extracted` returns:
`{'class_id': ..., 'count': ..., 'color': ...}`. -/
structure ColorResult where
  class_id : ℕ
  count : ℕ
  color : Color
deriving DecidableEq

/-- The per-detection body of the first loop of `colors_extracted`
(extract_color.py:135-140): convert the box, crop, extract the dominant
color.  A `None` from `extract_bbox_coordinates` makes the caller's
tuple unpack raise, and a `None` dominant color later makes
`find_similar_objects` raise; both are caught by the outer handler of
`colors_extracted`, so either failure is modelled as `none` here and
propagated by `colors_extracted`. -/
def detectionDominantColor (img : Image) (bbox : List ℚ) : Option Color :=
  match extract_bbox_coordinates bbox img.width img.height with
  | none => none
  | some (x1, y1, x2, y2) => find_dominant_colors (cropPixels img y1 y2 x1 x2) (0, 0, 0)

/-- `colors_extracted` (extract_color.py:115-156): dominant color per
detection, grouping, then one result record per group, reading the class
id from the detection at the group's stored index.  Any caught exception
on the way makes the whole call return `None`. -/
def colors_extracted (img : Image) (objects_data : List (ℕ × List ℚ)) :
    Option (List ColorResult) := do
  let dominant_colors ← objects_data.mapM (fun od => detectionDominantColor img od.2)
  let color_groups := find_similar_objects dominant_colors
  color_groups.mapM (fun g =>
    (objects_data.get? g.2.index).map (fun od => ⟨od.1, g.2.count, g.1⟩))

/-- One record after class-name resolution:
`{'class_name': ..., 'count': ..., 'color': ...}`. -/
structure NamedResult where
  class_name : String
  count : ℕ
  color : Color
deriving DecidableEq

/-- `replace_class_ids_with_names` (detect_product.py:54-78): per record,
resolve `class_id` through the class-name map, falling back to the
sentinel `"Unknown"` when the id is absent, and drop the id. -/
def replace_class_ids_with_names (colors_result : List ColorResult)
    (class_names : ℕ → Option String) : List NamedResult :=
  colors_result.map (fun item =>
    ⟨(class_names item.class_id).getD "Unknown", item.count, item.color⟩)

/-- `save_to_database` (detect_product.py:80-116), modelled by the rows
it inserts into `colors_results`: one `(class_name, quantity, color)` row
per record (the textual serialisation `str(color)` is not modelled beyond
the color value itself). -/
def save_to_database (colors_result_with_names : List NamedResult) :
    List (String × ℕ × Color) :=
  colors_result_with_names.map (fun item => (item.class_name, item.count, item.color))

-- sanity checks on concrete inputs
example : colorDistSq (0, 0, 0) (20, 0, 0) = 144 := by decide
example : colorDistSq (0, 0, 0) (6, 8, 0) = 100 := by decide
example : find_similar_objects [(0, 0, 0), (3, 0, 0)] = [((0, 0, 0), ⟨0, 2⟩)] := by decide
example : find_similar_objects [(0, 0, 0), (6, 8, 0)] =
    [((0, 0, 0), ⟨0, 1⟩), ((6, 8, 0), ⟨1, 1⟩)] := by decide
example : ratTrunc (-51/20) = -2 := by
  norm_num [ratTrunc]
  decide
example : sliceIndices 2 7 10 = [2, 3, 4, 5, 6] := by decide
example : sliceIndices (-3) 12 10 = [7, 8, 9] := by decide

/-! ## Distance lemmas -/

/-- One channel of `colorDistSq`, over `ℤ`: the wrapped square of the
wrapped difference is the true square reduced modulo 256. -/
lemma sq_u8_sub_u8_cast (a b : ℕ) :
    (sq_u8 (sub_u8 a b) : ℤ) = ((a : ℤ) - b) ^ 2 % 256 := by
  unfold sq_u8 sub_u8
  have hnn : (0 : ℤ) ≤ ((a : ℤ) - b) % 256 := Int.emod_nonneg _ (by norm_num)
  push_cast [Int.toNat_of_nonneg hnn]
  rw [← Int.mul_emod, ← pow_two]

/-- `colorDistSq` over `ℤ`, channel by channel. -/
lemma colorDistSq_cast (c1 c2 : Color) :
    (colorDistSq c1 c2 : ℤ) =
      ((c1.1 : ℤ) - c2.1) ^ 2 % 256 + ((c1.2.1 : ℤ) - c2.2.1) ^ 2 % 256
        + ((c1.2.2 : ℤ) - c2.2.2) ^ 2 % 256 := by
  simp only [colorDistSq, Nat.cast_add, sq_u8_sub_u8_cast]

/-- Wrapping commutes with swapping the colors, so the wrapped distance
is still symmetric. -/
lemma colorDistSq_comm (c1 c2 : Color) : colorDistSq c1 c2 = colorDistSq c2 c1 := by
  have h : (colorDistSq c1 c2 : ℤ) = (colorDistSq c2 c1 : ℤ) := by
    rw [colorDistSq_cast, colorDistSq_cast]
    ring_nf
  exact_mod_cast h

/-- When a channel difference has magnitude at most 15, its square is
below 256 and the `uint8` wraparound is invisible. -/
lemma chan_no_wrap {a b : ℕ} (h : ((a : ℤ) - b).natAbs ≤ 15) :
    (sq_u8 (sub_u8 a b) : ℤ) = ((a : ℤ) - b) ^ 2 := by
  rw [sq_u8_sub_u8_cast]
  have hb : (a : ℤ) - b ≤ 15 ∧ -15 ≤ (a : ℤ) - b := by omega
  exact Int.emod_eq_of_lt (sq_nonneg _) (by nlinarith [hb.1, hb.2])

/-- With all three channel differences of magnitude at most 15, the
wrapped squared distance agrees with the exact Euclidean one. -/
lemma colorDistSq_no_wrap {c1 c2 : Color}
    (h1 : ((c1.1 : ℤ) - c2.1).natAbs ≤ 15)
    (h2 : ((c1.2.1 : ℤ) - c2.2.1).natAbs ≤ 15)
    (h3 : ((c1.2.2 : ℤ) - c2.2.2).natAbs ≤ 15) :
    (colorDistSq c1 c2 : ℤ) = specEuclidSq c1 c2 := by
  simp only [colorDistSq, specEuclidSq, Nat.cast_add, chan_no_wrap h1, chan_no_wrap h2,
    chan_no_wrap h3]

/-- The strict comparison `color_distance(color, known_color) < 10` of
`find_similar_objects` is the comparison `colorDistSq < 100` the
grouping definitions use. -/
lemma color_distance_lt_ten (c1 c2 : Color) :
    color_distance c1 c2 < 10 ↔ colorDistSq c1 c2 < 100 := by
  unfold color_distance
  rw [Real.sqrt_lt' (by norm_num : (0 : ℝ) < 10)]
  norm_num

/-! ## Claim C2 -/

/-- C2 (counterexample): for the colors (0,0,0) and (20,0,0) — both with
channels in 0–255 — `color_distance` returns 12, not the exact Euclidean
distance 20: the `uint8` arithmetic wraps `(0 - 20) ** 2` to
`236 ** 2 % 256 = 144`. -/
theorem C2_counterexample :
    color_distance (0, 0, 0) (20, 0, 0) = 12 ∧
      specEuclideanDistance (0, 0, 0) (20, 0, 0) = 20 ∧
      color_distance (0, 0, 0) (20, 0, 0) ≠ specEuclideanDistance (0, 0, 0) (20, 0, 0) := by
  have h1 : colorDistSq (0, 0, 0) (20, 0, 0) = 144 := by decide
  have h2 : specEuclidSq (0, 0, 0) (20, 0, 0) = 400 := by decide
  have e1 : color_distance (0, 0, 0) (20, 0, 0) = 12 := by
    unfold color_distance
    rw [h1, show ((144 : ℕ) : ℝ) = 12 ^ 2 by norm_num]
    exact Real.sqrt_sq (by norm_num)
  have e2 : specEuclideanDistance (0, 0, 0) (20, 0, 0) = 20 := by
    unfold specEuclideanDistance
    rw [h2, show ((400 : ℤ) : ℝ) = 20 ^ 2 by norm_num]
    exact Real.sqrt_sq (by norm_num)
  refine ⟨e1, e2, ?_⟩
  rw [e1, e2]
  norm_num

/-- C2 (amended): `color_distance` is the square root of the sum of the
squared per-channel differences computed in `uint8` (modulo-256)
arithmetic, with no color-space conversion and no weighting.  It is
symmetric for all colors, and it equals the exact mathematical Euclidean
distance whenever every per-channel difference has magnitude at most 15
(so that no wraparound occurs) — but not for all colors with channels
in 0–255. -/
theorem C2_distance_symm_and_euclidean_when_small (c1 c2 : Color) :
    color_distance c1 c2 = color_distance c2 c1 ∧
      (((c1.1 : ℤ) - c2.1).natAbs ≤ 15 → ((c1.2.1 : ℤ) - c2.2.1).natAbs ≤ 15 →
        ((c1.2.2 : ℤ) - c2.2.2).natAbs ≤ 15 →
        color_distance c1 c2 = specEuclideanDistance c1 c2) := by
  constructor
  · unfold color_distance
    rw [colorDistSq_comm]
  · intro h1 h2 h3
    unfold color_distance specEuclideanDistance
    congr 1
    exact_mod_cast colorDistSq_no_wrap h1 h2 h3

/-- C2 (witness): at colors (10,20,30) and (5,20,30) the channel
differences are small, and the amended theorem applies. -/
theorem C2_witness :
    color_distance (10, 20, 30) (5, 20, 30) = specEuclideanDistance (10, 20, 30) (5, 20, 30) :=
  (C2_distance_symm_and_euclidean_when_small (10, 20, 30) (5, 20, 30)).2
    (by decide) (by decide) (by decide)

/-! ## Grouping lemmas -/

/-- Total of the `count` fields over all groups. -/
def totalCount (gs : ColorGroups) : ℕ := (gs.map (fun g => g.2.count)).sum

lemma addColor_totalCount (acc : ColorGroups) (i : ℕ) (c : Color) :
    totalCount (addColor acc i c) = totalCount acc + 1 := by
  induction acc with
  | nil => simp [addColor, totalCount]
  | cons g rest ih =>
    obtain ⟨k, info⟩ := g
    by_cases h : colorDistSq c k < 100
    · simp only [addColor, if_pos h, totalCount, List.map_cons, List.sum_cons]
      omega
    · simp only [addColor, if_neg h, totalCount, List.map_cons, List.sum_cons] at ih ⊢
      omega

lemma groupColorsAux_totalCount (cs : List Color) :
    ∀ (acc : ColorGroups) (i : ℕ),
      totalCount (groupColorsAux acc i cs) = totalCount acc + cs.length := by
  induction cs with
  | nil => intro acc i; simp [groupColorsAux]
  | cons c cs ih =>
    intro acc i
    simp only [groupColorsAux, ih, addColor_totalCount, List.length_cons]
    omega

lemma addColorMem_proj (acc : List (Color × ℕ × List ℕ)) (i : ℕ) (c : Color) :
    (addColorMem acc i c).map memProj = addColor (acc.map memProj) i c := by
  induction acc with
  | nil => simp [addColorMem, addColor, memProj]
  | cons g rest ih =>
    obtain ⟨k, idx, ms⟩ := g
    by_cases h : colorDistSq c k < 100
    · simp [addColorMem, addColor, memProj, if_pos h]
    · simp [addColorMem, addColor, memProj, if_neg h, ih]

lemma groupMemAux_proj (cs : List Color) :
    ∀ (acc : List (Color × ℕ × List ℕ)) (i : ℕ),
      (groupMemAux acc i cs).map memProj = groupColorsAux (acc.map memProj) i cs := by
  induction cs with
  | nil => intro acc i; simp [groupMemAux, groupColorsAux]
  | cons c cs ih =>
    intro acc i
    simp only [groupMemAux, groupColorsAux, ih, addColorMem_proj]

lemma addColorMem_allMembers (acc : List (Color × ℕ × List ℕ)) (i : ℕ) (c : Color) :
    (allMembers (addColorMem acc i c)).Perm (i :: allMembers acc) := by
  induction acc with
  | nil => simp [addColorMem, allMembers]
  | cons g rest ih =>
    obtain ⟨k, idx, ms⟩ := g
    by_cases h : colorDistSq c k < 100
    · simp only [addColorMem, if_pos h, allMembers, List.map_cons, List.flatten_cons,
        List.append_assoc, List.singleton_append]
      exact List.perm_middle
    · simp only [addColorMem, if_neg h, allMembers, List.map_cons, List.flatten_cons]
      exact (List.Perm.append_left ms ih).trans List.perm_middle

lemma groupMemAux_allMembers (cs : List Color) :
    ∀ (acc : List (Color × ℕ × List ℕ)) (i : ℕ),
      (allMembers (groupMemAux acc i cs)).Perm (allMembers acc ++ List.range' i cs.length) := by
  induction cs with
  | nil => intro acc i; simp [groupMemAux]
  | cons c cs ih =>
    intro acc i
    have h1 := ih (addColorMem acc i c) (i + 1)
    have h2 := (addColorMem_allMembers acc i c).append_right (List.range' (i + 1) cs.length)
    simp only [groupMemAux, List.length_cons, List.range'_succ]
    exact (h1.trans h2).trans List.perm_middle.symm

/-- The positions recorded across all groups are exactly the input
positions `0, ..., n-1`, as a permutation. -/
lemma groupMembers_allMembers (cs : List Color) :
    (allMembers (groupMembers cs)).Perm (List.range cs.length) := by
  have h := groupMemAux_allMembers cs [] 0
  simpa [groupMembers, allMembers, List.range_eq_range'] using h

/-! ## Claim C1 -/

/-- C1: for a non-empty input color sequence, the groups returned by
`find_similar_objects` partition it: the counts sum to the input length,
and (via the ghost member-tracking instrumentation, whose projection is
proved to coincide with `find_similar_objects`) every input position is
recorded in exactly one group. -/
theorem C1_partition (cs : List Color) (_hne : cs ≠ []) :
    totalCount (find_similar_objects cs) = cs.length ∧
      find_similar_objects cs = (groupMembers cs).map memProj ∧
      ∀ j, j < cs.length → (allMembers (groupMembers cs)).count j = 1 := by
  refine ⟨?_, ?_, ?_⟩
  · rw [find_similar_objects, groupColorsAux_totalCount]
    simp [totalCount]
  · rw [find_similar_objects, groupMembers, groupMemAux_proj]
    rfl
  · intro j hj
    rw [(groupMembers_allMembers cs).count_eq]
    exact List.count_eq_one_of_mem (List.nodup_range _) (List.mem_range.mpr hj)

/-- C1 (witness): the partition property evaluated on a concrete
three-color input forming two groups. -/
theorem C1_witness :
    totalCount (find_similar_objects [(0, 0, 0), (3, 0, 0), (200, 0, 0)]) = 3 ∧
      (allMembers (groupMembers [(0, 0, 0), (3, 0, 0), (200, 0, 0)])).count 1 = 1 := by
  have h := C1_partition [(0, 0, 0), (3, 0, 0), (200, 0, 0)] (by decide)
  exact ⟨h.1, h.2.2 1 (by decide)⟩

/-! ## Claim C10 -/

lemma mem_addColor {acc : ColorGroups} {i : ℕ} {c : Color} {g : Color × GroupInfo}
    (hg : g ∈ addColor acc i c) :
    g ∈ acc ∨ g = (c, ⟨i, 1⟩)
      ∨ ∃ k info, (k, info) ∈ acc ∧ g = (k, ⟨info.index, info.count + 1⟩) := by
  induction acc with
  | nil =>
    simp only [addColor, List.mem_singleton] at hg
    exact Or.inr (Or.inl hg)
  | cons hd rest ih =>
    obtain ⟨k, info⟩ := hd
    by_cases h : colorDistSq c k < 100
    · simp only [addColor, if_pos h, List.mem_cons] at hg
      rcases hg with hg | hg
      · exact Or.inr (Or.inr ⟨k, info, List.mem_cons_self .., hg⟩)
      · exact Or.inl (List.mem_cons_of_mem _ hg)
    · simp only [addColor, if_neg h, List.mem_cons] at hg
      rcases hg with hg | hg
      · exact Or.inl (by simp [hg])
      · rcases ih hg with h1 | h2 | ⟨k1, info1, hk1, he⟩
        · exact Or.inl (List.mem_cons_of_mem _ h1)
        · exact Or.inr (Or.inl h2)
        · exact Or.inr (Or.inr ⟨k1, info1, List.mem_cons_of_mem _ hk1, he⟩)

lemma groupColorsAux_inv (full : List Color) (cs : List Color) :
    ∀ (acc : ColorGroups) (i : ℕ),
      (∀ k, cs.get? k = full.get? (i + k)) →
      (∀ g ∈ acc, g.2.index < i ∧ full.get? g.2.index = some g.1 ∧ 1 ≤ g.2.count) →
      ∀ g ∈ groupColorsAux acc i cs,
        g.2.index < i + cs.length ∧ full.get? g.2.index = some g.1 ∧ 1 ≤ g.2.count := by
  induction cs with
  | nil =>
    intro acc i _ hacc g hg
    simp only [groupColorsAux] at hg
    have h := hacc g hg
    exact ⟨h.1, h.2⟩
  | cons c cs ih =>
    intro acc i hdrop hacc g hg
    simp only [groupColorsAux] at hg
    have hdrop1 : ∀ k, cs.get? k = full.get? (i + 1 + k) := by
      intro k
      have := hdrop (k + 1)
      simpa [Nat.add_assoc, Nat.add_comm 1 k] using this
    have hacc1 : ∀ g ∈ addColor acc i c,
        g.2.index < i + 1 ∧ full.get? g.2.index = some g.1 ∧ 1 ≤ g.2.count := by
      intro g hg
      rcases mem_addColor hg with h1 | h2 | ⟨k, info, hk, he⟩
      · have := hacc g h1
        exact ⟨Nat.lt_succ_of_lt this.1, this.2⟩
      · subst h2
        refine ⟨Nat.lt_succ_self i, ?_, le_refl 1⟩
        have := hdrop 0
        simpa using this.symm
      · have := hacc (k, info) hk
        subst he
        exact ⟨Nat.lt_succ_of_lt this.1, this.2.1, Nat.le_succ_of_le this.2.2⟩
    have := ih (addColor acc i c) (i + 1) hdrop1 hacc1 g hg
    refine ⟨?_, this.2⟩
    have h := this.1
    simp only [List.length_cons]
    omega

/-- C10: every group of `find_similar_objects` stores the index of the
input position that founded it: the index is in range, the input color
at that index is the group's key, and the count is at least 1 — so the
lookup `objects_data[info['index']][0]` in `colors_extracted` always
addresses the founding detection. -/
theorem C10_group_invariants (cs : List Color) (g : Color × GroupInfo)
    (hg : g ∈ find_similar_objects cs) :
    g.2.index < cs.length ∧ cs.get? g.2.index = some g.1 ∧ 1 ≤ g.2.count := by
  have h := groupColorsAux_inv cs cs [] 0 (by intro k; simp) (by simp) g hg
  simpa using h

/-- C10 (witness): the invariant evaluated on a concrete input. -/
theorem C10_witness :
    (((0, 0, 0), (⟨0, 2⟩ : GroupInfo)).2.index < ([(0, 0, 0), (3, 0, 0)] : List Color).length)
      ∧ ([(0, 0, 0), (3, 0, 0)] : List Color).get? 0 = some (0, 0, 0) := by
  have h := C10_group_invariants [(0, 0, 0), (3, 0, 0)] ((0, 0, 0), ⟨0, 2⟩) (by decide)
  exact ⟨h.1, h.2.1⟩

/-! ## Claim C4 -/

lemma natAbs_le_of_sq_le {d : ℤ} (h : d ^ 2 ≤ 225) : d.natAbs ≤ 15 := by
  have h1 : d ≤ 15 := by nlinarith
  have h2 : -15 ≤ d := by nlinarith
  omega

/-- When the exact squared Euclidean distance is at most 225, every
channel difference is small and the wrapped distance agrees with it. -/
lemma colorDistSq_eq_specEuclidSq_of_le {c1 c2 : Color} (h : specEuclidSq c1 c2 ≤ 225) :
    (colorDistSq c1 c2 : ℤ) = specEuclidSq c1 c2 := by
  have s1 := sq_nonneg ((c1.1 : ℤ) - c2.1)
  have s2 := sq_nonneg ((c1.2.1 : ℤ) - c2.2.1)
  have s3 := sq_nonneg ((c1.2.2 : ℤ) - c2.2.2)
  unfold specEuclidSq at h
  exact colorDistSq_no_wrap (natAbs_le_of_sq_le (by linarith))
    (natAbs_le_of_sq_le (by linarith)) (natAbs_le_of_sq_le (by linarith))

lemma specEuclidSq_comm (c1 c2 : Color) : specEuclidSq c1 c2 = specEuclidSq c2 c1 := by
  unfold specEuclidSq
  ring

/-- C4: the membership test is a strict less-than against 10.  Two
colors at exact Euclidean distance 10 (squared distance 100) land in two
different groups, while two colors at distance strictly below 10 land in
the same group (here with no other group around): near the threshold all
channel differences are at most 10, so the `uint8` wraparound of
`color_distance` is invisible and the claim holds as stated. -/
theorem C4_threshold_boundary (c1 c2 : Color) :
    (specEuclidSq c1 c2 = 100 →
      find_similar_objects [c1, c2] = [(c1, ⟨0, 1⟩), (c2, ⟨1, 1⟩)]) ∧
    (specEuclidSq c1 c2 < 100 →
      find_similar_objects [c1, c2] = [(c1, ⟨0, 2⟩)]) := by
  constructor
  · intro h
    have hd : (colorDistSq c2 c1 : ℤ) = 100 := by
      rw [colorDistSq_eq_specEuclidSq_of_le (by rw [specEuclidSq_comm c2 c1, h]; norm_num),
        specEuclidSq_comm c2 c1, h]
    have hn : ¬ colorDistSq c2 c1 < 100 := by
      have : colorDistSq c2 c1 = 100 := by exact_mod_cast hd
      omega
    show groupColorsAux [] 0 [c1, c2] = _
    simp [groupColorsAux, addColor, if_neg hn]
  · intro h
    have hd : (colorDistSq c2 c1 : ℤ) < 100 := by
      rw [colorDistSq_eq_specEuclidSq_of_le (by rw [specEuclidSq_comm c2 c1]; omega),
        specEuclidSq_comm c2 c1]
      exact h
    have hp : colorDistSq c2 c1 < 100 := by exact_mod_cast hd
    show groupColorsAux [] 0 [c1, c2] = _
    simp [groupColorsAux, addColor, if_pos hp]

/-- C4 (witness): (0,0,0) and (6,8,0) are at distance exactly 10 and
separate; (0,0,0) and (5,0,0) are at distance 5 < 10 and group
together. -/
theorem C4_witness :
    find_similar_objects [(0, 0, 0), (6, 8, 0)] =
        [((0, 0, 0), ⟨0, 1⟩), ((6, 8, 0), ⟨1, 1⟩)] ∧
      find_similar_objects [(0, 0, 0), (5, 0, 0)] = [((0, 0, 0), ⟨0, 2⟩)] :=
  ⟨(C4_threshold_boundary (0, 0, 0) (6, 8, 0)).1 (by decide),
    (C4_threshold_boundary (0, 0, 0) (5, 0, 0)).2 (by decide)⟩

/-! ## Claim C5 -/

/-- C5: grouping is greedy first-match in creation order.  The first
conjunct identifies the similarity test with the strict comparison
`color_distance < 10`; the second says a color joins the first group in
creation order whose representative is within threshold, incrementing
only its count and leaving every representative and index unchanged; the
third says a color matching no group founds a new group at the end with
count 1; the fourth says the representatives are never updated — the
group keys after one step are the old keys, possibly with the new color
appended. -/
theorem C5_greedy_first_match :
    (∀ c k : Color, color_distance c k < 10 ↔ colorDistSq c k < 100) ∧
      (∀ (pre : ColorGroups) (k : Color) (info : GroupInfo) (post : ColorGroups) (i : ℕ)
        (c : Color), (∀ g ∈ pre, ¬ colorDistSq c g.1 < 100) → colorDistSq c k < 100 →
        addColor (pre ++ (k, info) :: post) i c
          = pre ++ (k, ⟨info.index, info.count + 1⟩) :: post) ∧
      (∀ (groups : ColorGroups) (i : ℕ) (c : Color),
        (∀ g ∈ groups, ¬ colorDistSq c g.1 < 100) →
        addColor groups i c = groups ++ [(c, ⟨i, 1⟩)]) ∧
      (∀ (groups : ColorGroups) (i : ℕ) (c : Color),
        (addColor groups i c).map Prod.fst = groups.map Prod.fst
          ∨ (addColor groups i c).map Prod.fst = groups.map Prod.fst ++ [c]) := by
  refine ⟨color_distance_lt_ten, ?_, ?_, ?_⟩
  · intro pre k info post i c hpre hk
    induction pre with
    | nil => simp [addColor, if_pos hk]
    | cons g pre ih =>
      obtain ⟨k1, info1⟩ := g
      have hg : ¬ colorDistSq c k1 < 100 := hpre (k1, info1) (List.mem_cons_self ..)
      simp only [List.cons_append, addColor, if_neg hg, List.cons.injEq, true_and]
      exact ih (fun g hg1 => hpre g (List.mem_cons_of_mem _ hg1))
  · intro groups i c hng
    induction groups with
    | nil => simp [addColor]
    | cons g groups ih =>
      obtain ⟨k1, info1⟩ := g
      have hg : ¬ colorDistSq c k1 < 100 := hng (k1, info1) (List.mem_cons_self ..)
      simp only [addColor, if_neg hg, List.cons_append, List.cons.injEq, true_and]
      exact ih (fun g hg1 => hng g (List.mem_cons_of_mem _ hg1))
  · intro groups i c
    induction groups with
    | nil => right; simp [addColor]
    | cons g groups ih =>
      obtain ⟨k1, info1⟩ := g
      by_cases h : colorDistSq c k1 < 100
      · left; simp [addColor, if_pos h]
      · rcases ih with ih | ih
        · left; simp [addColor, if_neg h, ih]
        · right; simp [addColor, if_neg h, ih]

/-- C5 (witness): the color (53,0,0) skips the non-matching group of
(0,0,0), joins the first matching group, of (50,0,0), bumping only its
count, and never reaches the later group of (90,0,0). -/
theorem C5_witness :
    addColor [((0, 0, 0), ⟨0, 1⟩), ((50, 0, 0), ⟨1, 2⟩), ((90, 0, 0), ⟨2, 1⟩)] 7 (53, 0, 0)
      = [((0, 0, 0), ⟨0, 1⟩)] ++ ((50, 0, 0), (⟨1, 3⟩ : GroupInfo)) :: [((90, 0, 0), ⟨2, 1⟩)] :=
  C5_greedy_first_match.2.1 [((0, 0, 0), ⟨0, 1⟩)] (50, 0, 0) ⟨1, 2⟩ [((90, 0, 0), ⟨2, 1⟩)] 7
    (53, 0, 0) (by decide) (by decide)

/-! ## Claim C6 -/

/-- On nonnegative values, truncation toward zero is the floor. -/
lemma ratTrunc_eq_floor {q : ℚ} (h : 0 ≤ q) : ratTrunc q = ⌊q⌋ := by
  rw [Rat.floor_def, ratTrunc]
  exact Int.tdiv_eq_ediv (Rat.num_nonneg.mpr h) (by positivity)

/-- On negative values, truncation toward zero is the ceiling — the
`int()` cast does not round to nearest and does not floor. -/
lemma ratTrunc_eq_ceil {q : ℚ} (h : q < 0) : ratTrunc q = ⌈q⌉ := by
  have h1 : ratTrunc q = -ratTrunc (-q) := by
    simp [ratTrunc, Rat.neg_num, Rat.neg_den, Int.neg_tdiv]
  rw [h1, ratTrunc_eq_floor (by linarith : (0 : ℚ) ≤ -q), ← Int.ceil_neg, neg_neg]

/-- C6: `extract_bbox_coordinates` maps a four-component normalized box
to the four corner formulas under truncation toward zero (floor on
nonnegative values, ceiling on negative ones — integer-cast semantics,
not round-to-nearest); in particular box (0.5, 0.5, 0.5, 0.5) on a
100×100 image gives (25, 25, 75, 75), and box (0, 0, 0.51, 0.51) —
whose corner values ±25.5 would round away from zero under
round-to-nearest — gives (-25, -25, 25, 25). -/
theorem C6_bbox_truncation (x_center y_center width height : ℚ)
    (image_width image_height : ℕ) (q : ℚ) :
    extract_bbox_coordinates [x_center, y_center, width, height] image_width image_height
        = some (ratTrunc ((x_center - width / 2) * image_width),
            ratTrunc ((y_center - height / 2) * image_height),
            ratTrunc ((x_center + width / 2) * image_width),
            ratTrunc ((y_center + height / 2) * image_height)) ∧
      (0 ≤ q → ratTrunc q = ⌊q⌋) ∧ (q < 0 → ratTrunc q = ⌈q⌉) ∧
      extract_bbox_coordinates [1/2, 1/2, 1/2, 1/2] 100 100 = some (25, 25, 75, 75) ∧
      extract_bbox_coordinates [0, 0, 51/100, 51/100] 100 100
        = some (-25, -25, 25, 25) := by
  refine ⟨rfl, fun h => ratTrunc_eq_floor h, fun h => ratTrunc_eq_ceil h, ?_, ?_⟩
  · have e1 : ((1 : ℚ)/2 - (1/2) / 2) * ((100 : ℕ) : ℚ) = 25 := by norm_num
    have e2 : ((1 : ℚ)/2 + (1/2) / 2) * ((100 : ℕ) : ℚ) = 75 := by norm_num
    simp only [extract_bbox_coordinates, e1, e2]
    rw [ratTrunc_eq_floor (by norm_num), ratTrunc_eq_floor (by norm_num)]
    norm_num
  · have e1 : ((0 : ℚ) - (51/100) / 2) * ((100 : ℕ) : ℚ) = -51/2 := by norm_num
    have e2 : ((0 : ℚ) + (51/100) / 2) * ((100 : ℕ) : ℚ) = 51/2 := by norm_num
    simp only [extract_bbox_coordinates, e1, e2]
    rw [ratTrunc_eq_ceil (by norm_num), ratTrunc_eq_floor (by norm_num)]
    have hc : ⌈(-51/2 : ℚ)⌉ = -25 := by
      rw [show (-51/2 : ℚ) = -(51/2) by norm_num, Int.ceil_neg]
      norm_num
    rw [hc]
    norm_num

/-- C6 (witness): the truncation characterisation applied at the
nonnegative input 3 and the negative input -3. -/
theorem C6_witness :
    ratTrunc (3 : ℚ) = ⌊(3 : ℚ)⌋ ∧ ratTrunc (-3 : ℚ) = ⌈(-3 : ℚ)⌉ :=
  ⟨(C6_bbox_truncation 0 0 0 0 1 1 3).2.1 (by decide),
    (C6_bbox_truncation 0 0 0 0 1 1 (-3)).2.2.1 (by decide)⟩

/-! ## Claim C7 -/

/-- C7: `replace_class_ids_with_names` resolves each record's class id
through the class-name map positionally; an absent id resolves to the
sentinel "Unknown" instead of failing, a present id to its mapped name.
The last conjunct is the spec's instance: map {0: "cat"} and a record
with class id 5 gives "Unknown". -/
theorem C7_unknown_class (colors_result : List ColorResult)
    (class_names : ℕ → Option String) (j : ℕ) (r : ColorResult)
    (hj : colors_result.get? j = some r) :
    (class_names r.class_id = none →
      (replace_class_ids_with_names colors_result class_names).get? j
        = some ⟨"Unknown", r.count, r.color⟩) ∧
      (∀ s, class_names r.class_id = some s →
        (replace_class_ids_with_names colors_result class_names).get? j
          = some ⟨s, r.count, r.color⟩) ∧
      replace_class_ids_with_names [⟨5, 1, (1, 2, 3)⟩]
          (fun i => if i = 0 then some "cat" else none)
        = [⟨"Unknown", 1, (1, 2, 3)⟩] := by
  have hj2 : colors_result[j]? = some r := by
    rw [← List.get?_eq_getElem?]
    exact hj
  refine ⟨?_, ?_, rfl⟩
  · intro h
    simp [replace_class_ids_with_names, List.get?_eq_getElem?, hj2, h]
  · intro s h
    simp [replace_class_ids_with_names, List.get?_eq_getElem?, hj2, h]

/-- C7 (witness): a record with class id 5 against the map {0: "cat"}. -/
theorem C7_witness :
    (replace_class_ids_with_names [⟨5, 2, (9, 9, 9)⟩]
        (fun i => if i = 0 then some "cat" else none)).get? 0
      = some ⟨"Unknown", 2, (9, 9, 9)⟩ :=
  (C7_unknown_class [⟨5, 2, (9, 9, 9)⟩] (fun i => if i = 0 then some "cat" else none) 0
    ⟨5, 2, (9, 9, 9)⟩ rfl).1 rfl

/-! ## Claim C8 -/

/-- C8: on an empty detection list the pipeline terminates normally with
no error: `colors_extracted` returns the empty record list (not `None`),
name resolution keeps it empty, and `save_to_database` inserts zero
rows. -/
theorem C8_empty_detections (img : Image) (class_names : ℕ → Option String) :
    colors_extracted img [] = some [] ∧
      save_to_database (replace_class_ids_with_names [] class_names) = [] :=
  ⟨rfl, rfl⟩

/-! ## Claim C9 -/

lemma kmeansLoop_succ (pixels : List Color) (fuel : ℕ) (c : QColor) :
    kmeansLoop pixels (fuel + 1) c =
      if moveDistSq c (centroid pixels) < 1 / 100 then centroid pixels
      else kmeansLoop pixels fuel (centroid pixels) := by
  simp only [kmeansLoop, kmeansStep]

/-- With at least two iterations of budget, the `k = 1` iteration lands
on the mean of the pixels whatever the initial center was: the first
Lloyd step replaces any center by the mean, and from the mean the center
no longer moves, so the epsilon test stops the loop. -/
lemma kmeansLoop_eq_centroid (pixels : List Color) (c : QColor) (n : ℕ) (hn : 2 ≤ n) :
    kmeansLoop pixels n c = centroid pixels := by
  obtain ⟨m, rfl⟩ : ∃ m, n = m + 2 := ⟨n - 2, by omega⟩
  rw [show m + 2 = m + 1 + 1 by ring, kmeansLoop_succ]
  by_cases h : moveDistSq c (centroid pixels) < 1 / 100
  · rw [if_pos h]
  · rw [if_neg h, kmeansLoop_succ, if_pos (by simp [moveDistSq])]

/-- `find_dominant_colors` on a non-empty sample: the `uint8` cast of
the channelwise mean, for any initial center. -/
lemma find_dominant_colors_of_ne {pixels : List Color} (h : pixels ≠ []) (init : QColor) :
    find_dominant_colors pixels init
      = some ((ratTrunc (centroid pixels).1).toNat, (ratTrunc (centroid pixels).2.1).toNat,
          (ratTrunc (centroid pixels).2.2).toNat) := by
  rw [find_dominant_colors, if_neg (by simpa using h), kmeansLoop_eq_centroid _ _ _ (by norm_num)]

/-- A list mean is at most 255 when every element is. -/
lemma mean_le_255 {xs : List ℚ} (hne : xs ≠ []) (hb : ∀ x ∈ xs, x ≤ 255) :
    xs.sum / (xs.length : ℚ) ≤ 255 := by
  have hlen : 0 < (xs.length : ℚ) := by
    have h := List.length_pos.mpr hne
    exact_mod_cast h
  rw [div_le_iff₀ hlen]
  have h := List.sum_le_card_nsmul xs 255 hb
  simpa [nsmul_eq_mul, mul_comm] using h

/-- The `uint8` cast of a rational at most 255 stays in range. -/
lemma ratTrunc_toNat_le_255 {q : ℚ} (h : q ≤ 255) : (ratTrunc q).toNat ≤ 255 := by
  rcases le_or_lt 0 q with h0 | h0
  · rw [ratTrunc_eq_floor h0]
    have hf : ⌊q⌋ ≤ 255 := by
      have h1 : ⌊q⌋ ≤ ⌊(255 : ℚ)⌋ := Int.floor_le_floor h
      simpa using h1
    omega
  · rw [ratTrunc_eq_ceil h0]
    have hc : ⌈q⌉ ≤ (0 : ℤ) := Int.ceil_le.mpr (by exact_mod_cast le_of_lt h0)
    omega

/-- C9: dominant-color extraction with `k = 1` is deterministic — the
result does not depend on the random initial center — and equals the
channelwise mean of the pixels cast to the integer range (truncation);
when all pixel channels are at most 255, so are the result's channels. -/
theorem C9_dominant_color_deterministic_mean (pixels : List Color) (hne : pixels ≠ [])
    (i1 i2 : QColor) :
    find_dominant_colors pixels i1 = find_dominant_colors pixels i2 ∧
      find_dominant_colors pixels i1
        = some ((ratTrunc (centroid pixels).1).toNat, (ratTrunc (centroid pixels).2.1).toNat,
            (ratTrunc (centroid pixels).2.2).toNat) ∧
      ((∀ p ∈ pixels, p.1 ≤ 255 ∧ p.2.1 ≤ 255 ∧ p.2.2 ≤ 255) →
        ∀ c : Color, find_dominant_colors pixels i1 = some c →
          c.1 ≤ 255 ∧ c.2.1 ≤ 255 ∧ c.2.2 ≤ 255) := by
  refine ⟨?_, find_dominant_colors_of_ne hne i1, ?_⟩
  · rw [find_dominant_colors_of_ne hne i1, find_dominant_colors_of_ne hne i2]
  · intro hb c hc
    rw [find_dominant_colors_of_ne hne i1] at hc
    have hmap : pixels.map (fun p : Color => (p.1 : ℚ)) ≠ [] := by
      simpa using hne
    have h1 : (centroid pixels).1 ≤ 255 := by
      have := mean_le_255 hmap (by
        intro x hx
        obtain ⟨p, hp, rfl⟩ := List.mem_map.mp hx
        exact_mod_cast Nat.le_of_lt_succ (Nat.lt_succ_of_le (hb p hp).1))
      simpa [centroid] using this
    have hmap2 : pixels.map (fun p : Color => (p.2.1 : ℚ)) ≠ [] := by
      simpa using hne
    have h2 : (centroid pixels).2.1 ≤ 255 := by
      have := mean_le_255 hmap2 (by
        intro x hx
        obtain ⟨p, hp, rfl⟩ := List.mem_map.mp hx
        exact_mod_cast Nat.le_of_lt_succ (Nat.lt_succ_of_le (hb p hp).2.1))
      simpa [centroid] using this
    have hmap3 : pixels.map (fun p : Color => (p.2.2 : ℚ)) ≠ [] := by
      simpa using hne
    have h3 : (centroid pixels).2.2 ≤ 255 := by
      have := mean_le_255 hmap3 (by
        intro x hx
        obtain ⟨p, hp, rfl⟩ := List.mem_map.mp hx
        exact_mod_cast Nat.le_of_lt_succ (Nat.lt_succ_of_le (hb p hp).2.2))
      simpa [centroid] using this
    have hce : ((ratTrunc (centroid pixels).1).toNat, (ratTrunc (centroid pixels).2.1).toNat,
        (ratTrunc (centroid pixels).2.2).toNat) = c := Option.some_injective _ hc
    rw [← hce]
    exact ⟨ratTrunc_toNat_le_255 h1, ratTrunc_toNat_le_255 h2, ratTrunc_toNat_le_255 h3⟩

/-- C9 (witness): two different initial centers on a concrete two-pixel
sample give the same dominant color. -/
theorem C9_witness :
    find_dominant_colors [(10, 20, 30), (11, 21, 31)] (0, 0, 0)
      = find_dominant_colors [(10, 20, 30), (11, 21, 31)] (7, 9, 2) :=
  (C9_dominant_color_deterministic_mean [(10, 20, 30), (11, 21, 31)] (by decide)
    (0, 0, 0) (7, 9, 2)).1

/-! ## Claim C3 -/

lemma mapM_eq_none {α β : Type} (f : α → Option β) (l : List α) (a : α)
    (ha : a ∈ l) (hf : f a = none) : l.mapM f = none := by
  induction l with
  | nil => cases ha
  | cons b l ih =>
    rcases List.mem_cons.mp ha with rfl | hmem
    · rw [List.mapM_cons, hf]
      rfl
    · rw [List.mapM_cons]
      cases hfb : f b with
      | none => rfl
      | some v =>
        rw [ih hmem]
        rfl

/-- A concrete 4×4 image, every pixel (5,5,5); exercises claim C3. -/
def testImage : Image := ⟨4, 4, fun _ _ => (5, 5, 5)⟩

/-- C3 (amended): a per-detection failure is not skipped — when any
detection's box conversion or color extraction fails, the helper's
`None` makes the caller raise, the outer handler catches, and the whole
`colors_extracted` call returns `None`: no detections are grouped. -/
theorem C3_whole_call_fails (img : Image) (objects_data : List (ℕ × List ℚ))
    (od : ℕ × List ℚ) (hmem : od ∈ objects_data)
    (hfail : detectionDominantColor img od.2 = none) :
    colors_extracted img objects_data = none := by
  unfold colors_extracted
  rw [mapM_eq_none _ _ od hmem hfail]
  rfl

/-- C3 (witness): one malformed detection (three-component box) alone
makes the whole call fail. -/
theorem C3_witness : colors_extracted testImage [(7, [1/2, 1/2, 1/2])] = none :=
  C3_whole_call_fails testImage [(7, [1/2, 1/2, 1/2])] (7, [1/2, 1/2, 1/2])
    (List.mem_singleton.mpr rfl) rfl

/-- C3 (counterexample): on the 4×4 all-(5,5,5) image, the well-formed
detection alone is processed and grouped (`some` of one group), but
adding a malformed detection (three-component box) makes the whole call
return `None` — the remaining detection is NOT still processed and
grouped, contradicting the claimed per-detection skip. -/
theorem C3_counterexample :
    colors_extracted testImage [(7, [1/2, 1/2, 1/2]), (3, [1/2, 1/2, 1/2, 1/2])] = none ∧
      colors_extracted testImage [(3, [1/2, 1/2, 1/2, 1/2])] = some [⟨3, 1, (5, 5, 5)⟩] := by
  constructor
  · rfl
  · have hbb : extract_bbox_coordinates [1/2, 1/2, 1/2, 1/2] 4 4 = some (1, 1, 3, 3) := by
      have e1 : ((1 : ℚ)/2 - (1/2) / 2) * ((4 : ℕ) : ℚ) = 1 := by norm_num
      have e2 : ((1 : ℚ)/2 + (1/2) / 2) * ((4 : ℕ) : ℚ) = 3 := by norm_num
      simp only [extract_bbox_coordinates, e1, e2]
      rw [ratTrunc_eq_floor (by norm_num), ratTrunc_eq_floor (by norm_num)]
      norm_num
    have hcrop : cropPixels testImage 1 3 1 3
        = [(5, 5, 5), (5, 5, 5), (5, 5, 5), (5, 5, 5)] := by decide
    have hcent : centroid [(5, 5, 5), (5, 5, 5), (5, 5, 5), (5, 5, 5)] = ((5 : ℚ), 5, 5) := by
      norm_num [centroid]
    have h5 : (ratTrunc (5 : ℚ)).toNat = 5 := by
      rw [ratTrunc_eq_floor (by norm_num), show ⌊(5 : ℚ)⌋ = 5 by norm_num]
      decide
    have hfdc : find_dominant_colors [(5, 5, 5), (5, 5, 5), (5, 5, 5), (5, 5, 5)] (0, 0, 0)
        = some (5, 5, 5) := by
      rw [find_dominant_colors_of_ne (by decide) (0, 0, 0), hcent]
      simp [h5]
    have hdc2 : detectionDominantColor testImage [1/2, 1/2, 1/2, 1/2] = some (5, 5, 5) := by
      unfold detectionDominantColor
      rw [show testImage.width = 4 from rfl, show testImage.height = 4 from rfl, hbb]
      show find_dominant_colors (cropPixels testImage 1 3 1 3) (0, 0, 0) = some (5, 5, 5)
      rw [hcrop]
      exact hfdc
    unfold colors_extracted
    rw [List.mapM_cons]
    show (detectionDominantColor testImage [1/2, 1/2, 1/2, 1/2] >>= fun c =>
        ([] : List (ℕ × List ℚ)).mapM (fun od => detectionDominantColor testImage od.2)
          >>= fun cs => pure (c :: cs)) >>= _ = _
    rw [hdc2, List.mapM_nil]
    rfl
